import Mathlib

/-!
Verification of the StellHydra hash-time-locked escrow contract
(src/contracts-stellar/stellar-eth-escrow/src/lib.rs).

The contract's persistent state (the id-keyed escrow map plus the u64
counter) and its four state-machine operations are embedded as executable
Lean functions.  The Soroban host environment — ledger timestamp and
sequence number, the sha256 primitive and the authorization oracle backing
require_auth — is a parameter record `Env`.  A failed `require_auth` aborts
the invocation (modelled by the `Res.trap` outcome, distinct from the typed
contract errors), and the Soroban host rolls back every storage write of a
failed invocation (an error return or a trap); `commit` makes that rollback
rule explicit: the body result carries the working storage at its exit
point, and only an `ok` result's storage is kept.

Machine integers are modelled as `Nat`/`Int` with explicit reduction
modulo 2 ^ 64 (the u64 counter) and 2 ^ 32 (the u32 stats counters) at the
points where the Rust code can wrap.
-/

namespace StellHydra

/-- Byte strings (soroban_sdk::Bytes) as lists of byte values. -/
abbrev Bytes := List Nat

/-- Opaque account identities (soroban_sdk::Address). -/
abbrev Address := Nat

/-- The TimeLocks input struct of create_escrow: withdrawal and refund
deadlines.  Only `withdrawal` is ever read by the contract. -/
structure TimeLocks where
  withdrawal : Nat
  refund : Nat
  deriving DecidableEq, Repr

/-- One escrow record, mirroring the Rust `Escrow` struct field for field.
`status` is the raw u32 code: 0 pending, 1 locked, 2 completed, 3 refunded. -/
structure Escrow where
  id : Bytes
  maker : Address
  amount : Int
  asset : Address
  hash_lock : Bytes
  time_lock : Nat
  status : Nat
  secret : Option Bytes
  created_at : Nat
  deriving DecidableEq, Repr

/-- The typed contract errors of the `Error` enum. -/
inductive Error where
  | InvalidAmount
  | EscrowExists
  | EscrowNotFound
  | InvalidStatus
  | InvalidSecret
  | TimelockExpired
  | TimelockNotExpired
  deriving DecidableEq, Repr

/-- The Soroban host environment visible to the contract: the ledger
timestamp and sequence number, the sha256 primitive of env.crypto, and the
authorization oracle (`auths a = true` means `a.require_auth()` passes in
the current call context). -/
structure Env where
  timestamp : Nat
  sequence : Nat
  sha256 : Bytes → Bytes
  auths : Address → Bool

/-- The contract's instance storage: the ESCROWS map (as an association
list keyed by escrow id) and the u64 COUNTER. -/
structure State where
  counter : Nat
  escrows : List (Bytes × Escrow)
  deriving DecidableEq, Repr

/-- Outcome of one contract invocation body: a value plus the working
storage on success, a typed error plus the working storage at the point of
the early return, or a trap (failed require_auth) with its working
storage. -/
inductive Res (α : Type) where
  | ok : α → State → Res α
  | err : Error → State → Res α
  | trap : State → Res α
  deriving DecidableEq, Repr

/-- Host-level effect of an invocation: the Soroban host keeps the body's
storage writes only when the invocation succeeds; an error return or a
trap rolls every write back. -/
def commit {α : Type} (s0 : State) : Res α → State
  | .ok _ s => s
  | .err _ _ => s0
  | .trap _ => s0

/-- True iff the invocation returned Ok. -/
def succeedsRes {α : Type} : Res α → Bool
  | .ok _ _ => true
  | .err _ _ => false
  | .trap _ => false

/-- Lookup in the ESCROWS map (Map::get). -/
def mapGet : List (Bytes × Escrow) → Bytes → Option Escrow
  | [], _ => none
  | (k0, v0) :: rest, k => if k0 = k then some v0 else mapGet rest k

/-- Insert-or-update in the ESCROWS map (Map::set).  Soroban's Map is an
ordered map; an association list with replace-or-append gives the same
get/contains/iteration-multiset behaviour, which is all the contract
observes. -/
def mapSet : List (Bytes × Escrow) → Bytes → Escrow → List (Bytes × Escrow)
  | [], k, v => [(k, v)]
  | (k0, v0) :: rest, k, v =>
      if k0 = k then (k, v) :: rest else (k0, v0) :: mapSet rest k v

/-- Key-presence test (Map::contains_key). -/
def mapContains (m : List (Bytes × Escrow)) (k : Bytes) : Bool :=
  (mapGet m k).isSome

/-- Big-endian u64 serialization: the eight bytes `(x >> 56) as u8`
through `x as u8` from generate_escrow_id. -/
def u64be (x : Nat) : Bytes :=
  [x / 2 ^ 56 % 256, x / 2 ^ 48 % 256, x / 2 ^ 40 % 256, x / 2 ^ 32 % 256,
   x / 2 ^ 24 % 256, x / 2 ^ 16 % 256, x / 2 ^ 8 % 256, x % 256]

/-- Big-endian u32 serialization: the four bytes `(x >> 24) as u8` through
`x as u8`. -/
def u32be (x : Nat) : Bytes :=
  [x / 2 ^ 24 % 256, x / 2 ^ 16 % 256, x / 2 ^ 8 % 256, x % 256]

/-- One byte of an i128: arithmetic right shift by k (floor division),
then truncation to u8 (`(amount >> k) as u8`). -/
def i128byte (a : Int) (k : Nat) : Nat :=
  (Int.emod (Int.fdiv a (2 ^ k)) 256).toNat

/-- Big-endian i128 serialization: the sixteen bytes `(amount >> 120) as
u8` through `amount as u8`. -/
def i128be (a : Int) : Bytes :=
  [i128byte a 120, i128byte a 112, i128byte a 104, i128byte a 96,
   i128byte a 88, i128byte a 80, i128byte a 72, i128byte a 64,
   i128byte a 56, i128byte a 48, i128byte a 40, i128byte a 32,
   i128byte a 24, i128byte a 16, i128byte a 8, i128byte a 0]

/-- generate_escrow_id: increments and persists the COUNTER (u64, so the
increment wraps modulo 2 ^ 64), serializes timestamp, sequence, the
post-increment counter and the amount big-endian in that fixed order, and
hashes the 36-byte concatenation with sha256.  The maker and asset
parameters are accepted but not serialized, exactly as in the source. -/
def generate_escrow_id (env : Env) (s : State) (_maker : Address)
    (amount : Int) (_asset : Address) : Bytes × State :=
  let counter := (s.counter + 1) % 2 ^ 64
  let s1 : State := { s with counter := counter }
  let data_bytes :=
    u64be env.timestamp ++ u32be env.sequence ++ u64be counter ++ i128be amount
  (env.sha256 data_bytes, s1)

/-- compute_hash_lock: sha256 of the candidate secret. -/
def compute_hash_lock (env : Env) (secret : Bytes) : Bytes :=
  env.sha256 secret

/-- create_escrow: validates amount, requires the maker's authorization,
generates the id (incrementing the counter in working storage), rejects an
id collision, and stores the new record with status pending, no secret,
and `time_lock := time_locks.withdrawal`. -/
def create_escrow (env : Env) (s : State) (maker : Address) (amount : Int)
    (asset : Address) (hash_lock : Bytes) (time_locks : TimeLocks) : Res Bytes :=
  if amount ≤ 0 then .err .InvalidAmount s
  else if env.auths maker = false then .trap s
  else
    let gen := generate_escrow_id env s maker amount asset
    let escrow_id := gen.1
    let s1 := gen.2
    if mapContains s1.escrows escrow_id then .err .EscrowExists s1
    else
      let escrow : Escrow :=
        { id := escrow_id, maker := maker, amount := amount, asset := asset,
          hash_lock := hash_lock, time_lock := time_locks.withdrawal,
          status := 0, secret := none, created_at := env.timestamp }
      .ok escrow_id { s1 with escrows := mapSet s1.escrows escrow_id escrow }

/-- lock_escrow: requires the resolver's authorization, then moves a
pending record to locked. -/
def lock_escrow (env : Env) (s : State) (escrow_id : Bytes)
    (resolver : Address) : Res Unit :=
  if env.auths resolver = false then .trap s
  else
    match mapGet s.escrows escrow_id with
    | none => .err .EscrowNotFound s
    | some escrow =>
        if escrow.status ≠ 0 then .err .InvalidStatus s
        else
          let escrow2 := { escrow with status := 1 }
          .ok () { s with escrows := mapSet s.escrows escrow_id escrow2 }

/-- complete_escrow: requires the resolver's authorization, then checks in
order record existence, status locked, sha256(secret) against the stored
hash_lock, and timestamp ≤ time_lock; on success stores status completed
together with the revealed secret. -/
def complete_escrow (env : Env) (s : State) (escrow_id secret : Bytes)
    (resolver : Address) : Res Unit :=
  if env.auths resolver = false then .trap s
  else
    match mapGet s.escrows escrow_id with
    | none => .err .EscrowNotFound s
    | some escrow =>
        if escrow.status ≠ 1 then .err .InvalidStatus s
        else if compute_hash_lock env secret ≠ escrow.hash_lock then
          .err .InvalidSecret s
        else if env.timestamp > escrow.time_lock then .err .TimelockExpired s
        else
          let escrow2 := { escrow with status := 2, secret := some secret }
          .ok () { s with escrows := mapSet s.escrows escrow_id escrow2 }

/-- refund_escrow: fetches the record, requires authorization for the
record's stored maker, then checks status pending-or-locked and
timestamp > time_lock; on success stores status refunded. -/
def refund_escrow (env : Env) (s : State) (escrow_id : Bytes) : Res Unit :=
  match mapGet s.escrows escrow_id with
  | none => .err .EscrowNotFound s
  | some escrow =>
      if env.auths escrow.maker = false then .trap s
      else if escrow.status ≠ 0 ∧ escrow.status ≠ 1 then .err .InvalidStatus s
      else if env.timestamp ≤ escrow.time_lock then .err .TimelockNotExpired s
      else
        let escrow2 := { escrow with status := 3 }
        .ok () { s with escrows := mapSet s.escrows escrow_id escrow2 }

/-- get_escrow: point lookup. -/
def get_escrow (s : State) (escrow_id : Bytes) : Option Escrow :=
  mapGet s.escrows escrow_id

/-- get_escrows_by_maker: full scan filtering on maker equality. -/
def get_escrows_by_maker (s : State) (maker : Address) : List Escrow :=
  (s.escrows.filter (fun kv => kv.2.maker == maker)).map (fun kv => kv.2)

/-- The per-record counting loop of get_stats.  Each count is a u32 in the
source, so every increment is reduced modulo 2 ^ 32. -/
def statsLoop : List (Bytes × Escrow) → Nat → Nat → Nat → Nat →
    Nat × Nat × Nat × Nat
  | [], p, l, c, r => (p, l, c, r)
  | (_, e) :: rest, p, l, c, r =>
      if e.status = 0 then statsLoop rest ((p + 1) % 2 ^ 32) l c r
      else if e.status = 1 then statsLoop rest p ((l + 1) % 2 ^ 32) c r
      else if e.status = 2 then statsLoop rest p l ((c + 1) % 2 ^ 32) r
      else if e.status = 3 then statsLoop rest p l c ((r + 1) % 2 ^ 32)
      else statsLoop rest p l c r

/-- get_stats: the stored counter together with the per-status counts. -/
def get_stats (s : State) : Nat × Nat × Nat × Nat × Nat :=
  let counts := statsLoop s.escrows 0 0 0 0
  (s.counter, counts.1, counts.2.1, counts.2.2.1, counts.2.2.2)

/-- Storage contents right after the contract's init entry point: counter
0 and an empty escrow map.  (The unwrap_or defaults in every operation
make never-written storage behave identically to this state.) -/
def initialState : State :=
  { counter := 0, escrows := [] }

/-- One public state-machine call together with the host
context it runs in (each call sees its own ledger time and auth set). -/
inductive Op where
  | create (env : Env) (maker : Address) (amount : Int) (asset : Address)
      (hash_lock : Bytes) (time_locks : TimeLocks)
  | lock (env : Env) (escrow_id : Bytes) (resolver : Address)
  | complete (env : Env) (escrow_id : Bytes) (secret : Bytes) (resolver : Address)
  | refund (env : Env) (escrow_id : Bytes)

/-- Host-level effect of one invocation on the persistent storage. -/
def stepOp (s : State) : Op → State
  | .create env maker amount asset hash_lock time_locks =>
      commit s (create_escrow env s maker amount asset hash_lock time_locks)
  | .lock env escrow_id resolver => commit s (lock_escrow env s escrow_id resolver)
  | .complete env escrow_id secret resolver =>
      commit s (complete_escrow env s escrow_id secret resolver)
  | .refund env escrow_id => commit s (refund_escrow env s escrow_id)

/-- Run a sequence of invocations from a starting storage state. -/
def runOps (s : State) : List Op → State
  | [] => s
  | op :: rest => runOps (stepOp s op) rest

/-- The ids returned by the successful create_escrow calls of a run, in
call order. -/
def createdIds (s : State) : List Op → List Bytes
  | [] => []
  | op :: rest =>
      match op with
      | .create env maker amount asset hash_lock time_locks =>
          match create_escrow env s maker amount asset hash_lock time_locks with
          | .ok escrow_id s1 => escrow_id :: createdIds s1 rest
          | .err _ _ => createdIds s rest
          | .trap _ => createdIds s rest
      | .lock env escrow_id resolver =>
          createdIds (stepOp s (.lock env escrow_id resolver)) rest
      | .complete env escrow_id secret resolver =>
          createdIds (stepOp s (.complete env escrow_id secret resolver)) rest
      | .refund env escrow_id =>
          createdIds (stepOp s (.refund env escrow_id)) rest

/-- Record-level invariant: a stored status is one of the four codes, and
the secret is present exactly on a completed record. -/
def EscrowInv (e : Escrow) : Prop :=
  e.status ≤ 3 ∧ (e.secret.isSome = true ↔ e.status = 2)

/-- Storage invariant: the counter equals the record count reduced modulo
2 ^ 64, and every stored record satisfies EscrowInv. -/
def Inv (s : State) : Prop :=
  s.counter = s.escrows.length % 2 ^ 64 ∧ ∀ kv ∈ s.escrows, EscrowInv kv.2

/-- Creation-immutable fields: everything except status and secret. -/
def frameEq (e e' : Escrow) : Prop :=
  e.id = e'.id ∧ e.maker = e'.maker ∧ e.amount = e'.amount ∧
  e.asset = e'.asset ∧ e.hash_lock = e'.hash_lock ∧
  e.time_lock = e'.time_lock ∧ e.created_at = e'.created_at

/-- Concrete host environment for witnesses: time 0, sequence 0, a
constant one-byte digest, authorization granted to everyone. -/
def envW : Env :=
  { timestamp := 0, sequence := 0, sha256 := fun _ => [0], auths := fun _ => true }

/-- Concrete host environment for witnesses in which no authorization
succeeds. -/
def envNoAuth : Env :=
  { timestamp := 0, sequence := 0, sha256 := fun _ => [0], auths := fun _ => false }

/-- Concrete pending record for witnesses: the record created by
`create_escrow envW initialState 7 1 9 [] (TimeLocks.mk 10 20)`. -/
def recW : Escrow :=
  { id := [0], maker := 7, amount := 1, asset := 9, hash_lock := [],
    time_lock := 10, status := 0, secret := none, created_at := 0 }

/-- Concrete completed record for witnesses. -/
def recDone : Escrow :=
  { id := [5], maker := 7, amount := 1, asset := 9, hash_lock := [3],
    time_lock := 10, status := 2, secret := some [9], created_at := 0 }

/-- Concrete storage holding one record under key [0], for witnesses. -/
def stateW : State :=
  { counter := 0, escrows := [([0], recW)] }

/-- Concrete storage holding the completed record under key [5]. -/
def stateDone : State :=
  { counter := 1, escrows := [([5], recDone)] }

/-- Single-create run used by witnesses. -/
def opsW : List Op :=
  [Op.create envW 7 1 9 [] (TimeLocks.mk 10 20)]

theorem frameEq_refl (e : Escrow) : frameEq e e :=
  ⟨rfl, rfl, rfl, rfl, rfl, rfl, rfl⟩

theorem mapGet_mapSet (m : List (Bytes × Escrow)) (k k' : Bytes) (v : Escrow) :
    mapGet (mapSet m k v) k' = if k = k' then some v else mapGet m k' := by
  induction m with
  | nil => by_cases h : k = k' <;> simp [mapSet, mapGet, h]
  | cons hd rest ih =>
      obtain ⟨k0, v0⟩ := hd
      by_cases h0 : k0 = k
      · subst h0
        by_cases h1 : k0 = k'
        · subst h1; simp [mapSet, mapGet]
        · simp [mapSet, mapGet, h1]
      · by_cases h1 : k0 = k'
        · subst h1
          have hk : ¬(k = k0) := fun h => h0 h.symm
          simp [mapSet, mapGet, h0, hk]
        · simp [mapSet, mapGet, h0, h1, ih]

theorem length_mapSet_of_none (m : List (Bytes × Escrow)) (k : Bytes) (v : Escrow)
    (h : mapGet m k = none) : (mapSet m k v).length = m.length + 1 := by
  induction m with
  | nil => simp [mapSet]
  | cons hd rest ih =>
      obtain ⟨k0, v0⟩ := hd
      by_cases h0 : k0 = k
      · simp [mapGet, h0] at h
      · simp only [mapGet, h0, if_false] at h
        simp [mapSet, h0, ih h]

theorem length_mapSet_of_some (m : List (Bytes × Escrow)) (k : Bytes) (v e : Escrow)
    (h : mapGet m k = some e) : (mapSet m k v).length = m.length := by
  induction m with
  | nil => simp [mapGet] at h
  | cons hd rest ih =>
      obtain ⟨k0, v0⟩ := hd
      by_cases h0 : k0 = k
      · simp [mapSet, h0]
      · simp only [mapGet, h0, if_false] at h
        simp [mapSet, h0, ih h]

theorem mem_mapSet (m : List (Bytes × Escrow)) (k : Bytes) (v : Escrow)
    (kv : Bytes × Escrow) (h : kv ∈ mapSet m k v) : kv = (k, v) ∨ kv ∈ m := by
  induction m with
  | nil =>
      simp [mapSet] at h
      exact Or.inl h
  | cons hd rest ih =>
      obtain ⟨k0, v0⟩ := hd
      by_cases h0 : k0 = k
      · simp only [mapSet, h0, if_true] at h
        rcases List.mem_cons.mp h with h | h
        · exact Or.inl h
        · exact Or.inr (List.mem_cons_of_mem _ h)
      · simp only [mapSet, h0, if_false] at h
        rcases List.mem_cons.mp h with h | h
        · exact Or.inr (h ▸ List.mem_cons_self _ _)
        · rcases ih h with h2 | h2
          · exact Or.inl h2
          · exact Or.inr (List.mem_cons_of_mem _ h2)

theorem mapGet_mem (m : List (Bytes × Escrow)) (k : Bytes) (e : Escrow)
    (h : mapGet m k = some e) : (k, e) ∈ m := by
  induction m with
  | nil => simp [mapGet] at h
  | cons hd rest ih =>
      obtain ⟨k0, v0⟩ := hd
      by_cases h0 : k0 = k
      · subst h0
        simp [mapGet] at h
        subst h
        exact List.mem_cons_self _ _
      · simp only [mapGet, h0, if_false] at h
        exact List.mem_cons_of_mem _ (ih h)

theorem create_ok_elim (env : Env) (s : State) (maker : Address) (amount : Int)
    (asset : Address) (hash_lock : Bytes) (time_locks : TimeLocks)
    (escrow_id : Bytes) (s' : State)
    (h : create_escrow env s maker amount asset hash_lock time_locks = .ok escrow_id s') :
    0 < amount ∧ env.auths maker = true ∧ mapGet s.escrows escrow_id = none ∧
    s' = { counter := (s.counter + 1) % 2 ^ 64,
           escrows := mapSet s.escrows escrow_id
             { id := escrow_id, maker := maker, amount := amount, asset := asset,
               hash_lock := hash_lock, time_lock := time_locks.withdrawal,
               status := 0, secret := none, created_at := env.timestamp } } := by
  simp only [create_escrow] at h
  split at h
  · exact absurd h (by simp)
  · split at h
    · exact absurd h (by simp)
    · split at h
      · exact absurd h (by simp)
      · rename_i h1 h2 h3
        injection h with h4 h5
        subst h4
        refine ⟨by omega, ?_, ?_, ?_⟩
        · cases hb : env.auths maker
          · exact absurd hb h2
          · rfl
        · rcases hx : mapGet s.escrows (generate_escrow_id env s maker amount asset).1
            with _ | v
          · rfl
          · refine absurd ?_ h3
            show mapContains (generate_escrow_id env s maker amount asset).2.escrows
              (generate_escrow_id env s maker amount asset).1 = true
            have hes : (generate_escrow_id env s maker amount asset).2.escrows =
                s.escrows := rfl
            rw [mapContains, hes, hx]
            rfl
        · rw [← h5]
          rfl

theorem lock_ok_elim (env : Env) (s : State) (escrow_id : Bytes) (resolver : Address)
    (u : Unit) (s' : State)
    (h : lock_escrow env s escrow_id resolver = .ok u s') :
    env.auths resolver = true ∧
    ∃ e, mapGet s.escrows escrow_id = some e ∧ e.status = 0 ∧
      s' = { s with escrows := mapSet s.escrows escrow_id ({ e with status := 1 }) } := by
  simp only [lock_escrow] at h
  split at h
  · exact absurd h (by simp)
  · rename_i h1
    split at h
    · exact absurd h (by simp)
    · rename_i e he
      split at h
      · exact absurd h (by simp)
      · rename_i h2
        injection h with h4 h5
        refine ⟨?_, e, he, by omega, h5.symm⟩
        cases hb : env.auths resolver
        · exact absurd hb h1
        · rfl

theorem complete_ok_elim (env : Env) (s : State) (escrow_id secret : Bytes)
    (resolver : Address) (u : Unit) (s' : State)
    (h : complete_escrow env s escrow_id secret resolver = .ok u s') :
    env.auths resolver = true ∧
    ∃ e, mapGet s.escrows escrow_id = some e ∧ e.status = 1 ∧
      compute_hash_lock env secret = e.hash_lock ∧
      env.timestamp ≤ e.time_lock ∧
      s' = { s with escrows := mapSet s.escrows escrow_id ({ e with status := 2, secret := some secret }) } := by
  simp only [complete_escrow] at h
  split at h
  · exact absurd h (by simp)
  · rename_i h1
    split at h
    · exact absurd h (by simp)
    · rename_i e he
      split at h
      · exact absurd h (by simp)
      · rename_i h2
        split at h
        · exact absurd h (by simp)
        · rename_i h3
          split at h
          · exact absurd h (by simp)
          · rename_i h4
            injection h with h5 h6
            refine ⟨?_, e, he, by omega, by simpa using h3, by omega, h6.symm⟩
            cases hb : env.auths resolver
            · exact absurd hb h1
            · rfl

theorem refund_ok_elim (env : Env) (s : State) (escrow_id : Bytes)
    (u : Unit) (s' : State)
    (h : refund_escrow env s escrow_id = .ok u s') :
    ∃ e, mapGet s.escrows escrow_id = some e ∧ env.auths e.maker = true ∧
      (e.status = 0 ∨ e.status = 1) ∧ e.time_lock < env.timestamp ∧
      s' = { s with escrows := mapSet s.escrows escrow_id ({ e with status := 3 }) } := by
  simp only [refund_escrow] at h
  split at h
  · exact absurd h (by simp)
  · rename_i e he
    split at h
    · exact absurd h (by simp)
    · rename_i h1
      split at h
      · exact absurd h (by simp)
      · rename_i h2
        split at h
        · exact absurd h (by simp)
        · rename_i h3
          injection h with h4 h5
          refine ⟨e, he, ?_, by omega, by omega, h5.symm⟩
          cases hb : env.auths e.maker
          · exact absurd hb h1
          · rfl

theorem contains_mapSet (m : List (Bytes × Escrow)) (k k' : Bytes) (v : Escrow)
    (h : mapContains m k' = true) : mapContains (mapSet m k v) k' = true := by
  rw [mapContains, mapGet_mapSet]
  by_cases hk : k = k'
  · simp [hk]
  · rw [if_neg hk]
    exact h

theorem contains_stepOp (s : State) (op : Op) (k : Bytes)
    (h : mapContains s.escrows k = true) : mapContains (stepOp s op).escrows k = true := by
  cases op with
  | create env maker amount asset hash_lock time_locks =>
      cases hc : create_escrow env s maker amount asset hash_lock time_locks with
      | ok id s1 =>
          obtain ⟨_, _, _, hs1⟩ := create_ok_elim env s maker amount asset hash_lock
            time_locks id s1 hc
          simp only [stepOp, hc, commit, hs1]
          exact contains_mapSet _ _ _ _ h
      | err e s1 => simpa only [stepOp, hc, commit] using h
      | trap s1 => simpa only [stepOp, hc, commit] using h
  | lock env escrow_id resolver =>
      cases hc : lock_escrow env s escrow_id resolver with
      | ok u s1 =>
          obtain ⟨_, e, _, _, hs1⟩ := lock_ok_elim env s escrow_id resolver u s1 hc
          simp only [stepOp, hc, commit, hs1]
          exact contains_mapSet _ _ _ _ h
      | err e s1 => simpa only [stepOp, hc, commit] using h
      | trap s1 => simpa only [stepOp, hc, commit] using h
  | complete env escrow_id secret resolver =>
      cases hc : complete_escrow env s escrow_id secret resolver with
      | ok u s1 =>
          obtain ⟨_, e, _, _, _, _, hs1⟩ := complete_ok_elim env s escrow_id secret
            resolver u s1 hc
          simp only [stepOp, hc, commit, hs1]
          exact contains_mapSet _ _ _ _ h
      | err e s1 => simpa only [stepOp, hc, commit] using h
      | trap s1 => simpa only [stepOp, hc, commit] using h
  | refund env escrow_id =>
      cases hc : refund_escrow env s escrow_id with
      | ok u s1 =>
          obtain ⟨e, _, _, _, _, hs1⟩ := refund_ok_elim env s escrow_id u s1 hc
          simp only [stepOp, hc, commit, hs1]
          exact contains_mapSet _ _ _ _ h
      | err e s1 => simpa only [stepOp, hc, commit] using h
      | trap s1 => simpa only [stepOp, hc, commit] using h

theorem length_stepOp (s : State) (op : Op) :
    (stepOp s op).escrows.length ≤ s.escrows.length + 1 := by
  cases op with
  | create env maker amount asset hash_lock time_locks =>
      cases hc : create_escrow env s maker amount asset hash_lock time_locks with
      | ok id s1 =>
          obtain ⟨_, _, hnone, hs1⟩ := create_ok_elim env s maker amount asset hash_lock
            time_locks id s1 hc
          simp only [stepOp, hc, commit, hs1]
          rw [length_mapSet_of_none _ _ _ hnone]
      | err e s1 => simp only [stepOp, hc, commit]; omega
      | trap s1 => simp only [stepOp, hc, commit]; omega
  | lock env escrow_id resolver =>
      cases hc : lock_escrow env s escrow_id resolver with
      | ok u s1 =>
          obtain ⟨_, e, he, _, hs1⟩ := lock_ok_elim env s escrow_id resolver u s1 hc
          simp only [stepOp, hc, commit, hs1]
          rw [length_mapSet_of_some _ _ _ _ he]
          omega
      | err e s1 => simp only [stepOp, hc, commit]; omega
      | trap s1 => simp only [stepOp, hc, commit]; omega
  | complete env escrow_id secret resolver =>
      cases hc : complete_escrow env s escrow_id secret resolver with
      | ok u s1 =>
          obtain ⟨_, e, he, _, _, _, hs1⟩ := complete_ok_elim env s escrow_id secret
            resolver u s1 hc
          simp only [stepOp, hc, commit, hs1]
          rw [length_mapSet_of_some _ _ _ _ he]
          omega
      | err e s1 => simp only [stepOp, hc, commit]; omega
      | trap s1 => simp only [stepOp, hc, commit]; omega
  | refund env escrow_id =>
      cases hc : refund_escrow env s escrow_id with
      | ok u s1 =>
          obtain ⟨e, he, _, _, _, hs1⟩ := refund_ok_elim env s escrow_id u s1 hc
          simp only [stepOp, hc, commit, hs1]
          rw [length_mapSet_of_some _ _ _ _ he]
          omega
      | err e s1 => simp only [stepOp, hc, commit]; omega
      | trap s1 => simp only [stepOp, hc, commit]; omega

theorem length_runOps (s : State) (ops : List Op) :
    (runOps s ops).escrows.length ≤ s.escrows.length + ops.length := by
  induction ops generalizing s with
  | nil => simp [runOps]
  | cons op rest ih =>
      have h1 := length_stepOp s op
      have h2 := ih (stepOp s op)
      simp only [runOps, List.length_cons]
      omega

theorem EscrowInv_new (escrow_id : Bytes) (maker : Address) (amount : Int)
    (asset : Address) (hash_lock : Bytes) (tl ts : Nat) :
    EscrowInv { id := escrow_id, maker := maker, amount := amount, asset := asset,
                hash_lock := hash_lock, time_lock := tl, status := 0,
                secret := none, created_at := ts } := by
  constructor
  · simp
  · simp

theorem EscrowInv_secret_none (e : Escrow) (h : EscrowInv e) (hne : e.status ≠ 2) :
    e.secret = none := by
  cases hs : e.secret with
  | none => rfl
  | some v => exact absurd (h.2.mp (by simp [hs])) hne

theorem inv_stepOp (s : State) (op : Op) (h : Inv s) : Inv (stepOp s op) := by
  cases op with
  | create env maker amount asset hash_lock time_locks =>
      cases hc : create_escrow env s maker amount asset hash_lock time_locks with
      | ok id s1 =>
          obtain ⟨_, _, hnone, hs1⟩ := create_ok_elim env s maker amount asset hash_lock
            time_locks id s1 hc
          simp only [stepOp, hc, commit, hs1]
          constructor
          · show (s.counter + 1) % 2 ^ 64 = _ % 2 ^ 64
            rw [length_mapSet_of_none _ _ _ hnone, h.1, Nat.mod_add_mod]
          · intro kv hkv
            rcases mem_mapSet _ _ _ _ hkv with hkv | hkv

            · rw [hkv]
              exact EscrowInv_new _ _ _ _ _ _ _
            · exact h.2 kv hkv
      | err e s1 => simpa only [stepOp, hc, commit] using h
      | trap s1 => simpa only [stepOp, hc, commit] using h
  | lock env escrow_id resolver =>
      cases hc : lock_escrow env s escrow_id resolver with
      | ok u s1 =>
          obtain ⟨_, e, he, hst, hs1⟩ := lock_ok_elim env s escrow_id resolver u s1 hc
          have hinv := h.2 (escrow_id, e) (mapGet_mem _ _ _ he)
          simp only [stepOp, hc, commit, hs1]
          constructor
          · show s.counter = _ % 2 ^ 64
            rw [length_mapSet_of_some _ _ _ _ he, h.1]
          · intro kv hkv
            rcases mem_mapSet _ _ _ _ hkv with hkv | hkv
            · rw [hkv]
              refine ⟨by simp, ?_⟩
              have hsec : e.secret = none := EscrowInv_secret_none e hinv (by omega)
              simp [hsec]
            · exact h.2 kv hkv
      | err e s1 => simpa only [stepOp, hc, commit] using h
      | trap s1 => simpa only [stepOp, hc, commit] using h
  | complete env escrow_id secret resolver =>
      cases hc : complete_escrow env s escrow_id secret resolver with
      | ok u s1 =>
          obtain ⟨_, e, he, hst, _, _, hs1⟩ := complete_ok_elim env s escrow_id secret
            resolver u s1 hc
          simp only [stepOp, hc, commit, hs1]
          constructor
          · show s.counter = _ % 2 ^ 64
            rw [length_mapSet_of_some _ _ _ _ he, h.1]
          · intro kv hkv
            rcases mem_mapSet _ _ _ _ hkv with hkv | hkv
            · rw [hkv]
              refine ⟨by simp, ?_⟩
              simp
            · exact h.2 kv hkv
      | err e s1 => simpa only [stepOp, hc, commit] using h
      | trap s1 => simpa only [stepOp, hc, commit] using h
  | refund env escrow_id =>
      cases hc : refund_escrow env s escrow_id with
      | ok u s1 =>
          obtain ⟨e, he, _, hst, _, hs1⟩ := refund_ok_elim env s escrow_id u s1 hc
          have hinv := h.2 (escrow_id, e) (mapGet_mem _ _ _ he)
          simp only [stepOp, hc, commit, hs1]
          constructor
          · show s.counter = _ % 2 ^ 64
            rw [length_mapSet_of_some _ _ _ _ he, h.1]
          · intro kv hkv
            rcases mem_mapSet _ _ _ _ hkv with hkv | hkv
            · rw [hkv]
              refine ⟨by simp, ?_⟩
              have hsec : e.secret = none := EscrowInv_secret_none e hinv (by omega)
              simp [hsec]
            · exact h.2 kv hkv
      | err e s1 => simpa only [stepOp, hc, commit] using h
      | trap s1 => simpa only [stepOp, hc, commit] using h

theorem inv_initialState : Inv initialState := by
  constructor
  · simp [initialState]
  · intro kv hkv
    simp [initialState] at hkv

theorem inv_runOps (s : State) (ops : List Op) (h : Inv s) : Inv (runOps s ops) := by
  induction ops generalizing s with
  | nil => exact h
  | cons op rest ih => exact ih (stepOp s op) (inv_stepOp s op h)

theorem createdIds_fresh (ops : List Op) : ∀ (s : State) (k : Bytes),
    mapContains s.escrows k = true → k ∉ createdIds s ops := by
  induction ops with
  | nil => intro s k _; simp [createdIds]
  | cons op rest ih =>
      intro s k hk
      cases op with
      | create env maker amount asset hash_lock time_locks =>
          cases hc : create_escrow env s maker amount asset hash_lock time_locks with
          | ok id s1 =>
              obtain ⟨_, _, hnone, hs1⟩ := create_ok_elim env s maker amount asset
                hash_lock time_locks id s1 hc
              simp only [createdIds, hc, List.mem_cons, not_or]
              constructor
              · intro hkid
                rw [hkid, mapContains, hnone] at hk
                exact absurd hk (by simp)
              · refine ih s1 k ?_
                rw [hs1]
                exact contains_mapSet _ _ _ _ hk
          | err e s1 =>
              simp only [createdIds, hc]
              exact ih s k hk
          | trap s1 =>
              simp only [createdIds, hc]
              exact ih s k hk
      | lock env escrow_id resolver =>
          simp only [createdIds]
          exact ih _ k (contains_stepOp s (.lock env escrow_id resolver) k hk)
      | complete env escrow_id secret resolver =>
          simp only [createdIds]
          exact ih _ k (contains_stepOp s (.complete env escrow_id secret resolver) k hk)
      | refund env escrow_id =>
          simp only [createdIds]
          exact ih _ k (contains_stepOp s (.refund env escrow_id) k hk)

theorem statsLoop_sum (l : List (Bytes × Escrow)) : ∀ (p lk c r : Nat),
    (∀ kv ∈ l, kv.2.status ≤ 3) → p + lk + c + r + l.length < 2 ^ 32 →
    (statsLoop l p lk c r).1 + (statsLoop l p lk c r).2.1 +
      (statsLoop l p lk c r).2.2.1 + (statsLoop l p lk c r).2.2.2 =
      p + lk + c + r + l.length := by
  induction l with
  | nil => intro p lk c r _ _; simp [statsLoop]
  | cons hd rest ih =>
      intro p lk c r hst hb
      obtain ⟨k0, e0⟩ := hd
      have h0 : e0.status ≤ 3 := hst (k0, e0) (List.mem_cons_self _ _)
      have hrest : ∀ kv ∈ rest, kv.2.status ≤ 3 :=
        fun kv hkv => hst kv (List.mem_cons_of_mem _ hkv)
      have hlen : ((k0, e0) :: rest).length = rest.length + 1 := rfl
      simp only [List.length_cons] at hb ⊢
      by_cases hs0 : e0.status = 0
      · have hstep : statsLoop ((k0, e0) :: rest) p lk c r =
            statsLoop rest ((p + 1) % 2 ^ 32) lk c r := by
          simp [statsLoop, hs0]
        have hp : (p + 1) % 2 ^ 32 = p + 1 := Nat.mod_eq_of_lt (by omega)
        rw [hstep, hp, ih (p + 1) lk c r hrest (by omega)]
        omega
      · by_cases hs1 : e0.status = 1
        · have hstep : statsLoop ((k0, e0) :: rest) p lk c r =
              statsLoop rest p ((lk + 1) % 2 ^ 32) c r := by
            simp [statsLoop, hs0, hs1]
          have hp : (lk + 1) % 2 ^ 32 = lk + 1 := Nat.mod_eq_of_lt (by omega)
          rw [hstep, hp, ih p (lk + 1) c r hrest (by omega)]
          omega
        · by_cases hs2 : e0.status = 2
          · have hstep : statsLoop ((k0, e0) :: rest) p lk c r =
                statsLoop rest p lk ((c + 1) % 2 ^ 32) r := by
              simp [statsLoop, hs0, hs1, hs2]
            have hp : (c + 1) % 2 ^ 32 = c + 1 := Nat.mod_eq_of_lt (by omega)
            rw [hstep, hp, ih p lk (c + 1) r hrest (by omega)]
            omega
          · have hs3 : e0.status = 3 := by omega
            have hstep : statsLoop ((k0, e0) :: rest) p lk c r =
                statsLoop rest p lk c ((r + 1) % 2 ^ 32) := by
              simp [statsLoop, hs0, hs1, hs2, hs3]
            have hp : (r + 1) % 2 ^ 32 = r + 1 := Nat.mod_eq_of_lt (by omega)
            rw [hstep, hp, ih p lk c (r + 1) hrest (by omega)]
            omega

/-- C8: ID uniqueness — over any sequence of operations, the ids returned
by the successful create_escrow calls are pairwise distinct.  In the model
the distinctness is enforced by generate_escrow_id feeding the
post-increment counter into the hashed serialization together with the
EscrowExists collision check: a successful create requires the generated
id to be absent from the registry, every returned id stays a registry key
forever, and no operation removes keys. -/
theorem create_ids_distinct (s : State) (ops : List Op) :
    (createdIds s ops).Nodup := by
  induction ops generalizing s with
  | nil => simp [createdIds]
  | cons op rest ih =>
      cases op with
      | create env maker amount asset hash_lock time_locks =>
          cases hc : create_escrow env s maker amount asset hash_lock time_locks with
          | ok id s1 =>
              obtain ⟨_, _, hnone, hs1⟩ := create_ok_elim env s maker amount asset
                hash_lock time_locks id s1 hc
              have hcont : mapContains s1.escrows id = true := by
                rw [hs1]
                simp [mapContains, mapGet_mapSet]
              simp only [createdIds, hc, List.nodup_cons]
              exact ⟨createdIds_fresh rest s1 id hcont, ih s1⟩
          | err e s1 =>
              simp only [createdIds, hc]
              exact ih s
          | trap s1 =>
              simp only [createdIds, hc]
              exact ih s
      | lock env escrow_id resolver =>
          simp only [createdIds]
          exact ih _
      | complete env escrow_id secret resolver =>
          simp only [createdIds]
          exact ih _
      | refund env escrow_id =>
          simp only [createdIds]
          exact ih _

/-- C6: in every state reachable from the freshly set-up storage, a stored
record carries a secret exactly when its status is completed: create stores
secret none with status pending, and only complete_escrow sets the secret,
simultaneously with status completed. -/
theorem secret_iff_completed (ops : List Op) (kv : Bytes × Escrow)
    (hmem : kv ∈ (runOps initialState ops).escrows) :
    kv.2.secret.isSome = true ↔ kv.2.status = 2 :=
  ((inv_runOps initialState ops inv_initialState).2 kv hmem).2

/-- Witness for C6 on the one-create run opsW. -/
theorem secret_iff_completed_witness :
    (([0], recW) : Bytes × Escrow).2.secret.isSome = true ↔
      (([0], recW) : Bytes × Escrow).2.status = 2 :=
  secret_iff_completed opsW ([0], recW) (by decide)

/-- C7: stats conservation — in every state reachable by fewer than 2 ^ 32
operations (the bound under which neither the u64 counter nor the u32
status counts can wrap), the four per-status counts returned by get_stats
sum to the stored counter value. -/
theorem stats_conservation (ops : List Op) (hops : ops.length < 2 ^ 32) :
    (get_stats (runOps initialState ops)).2.1 +
      (get_stats (runOps initialState ops)).2.2.1 +
      (get_stats (runOps initialState ops)).2.2.2.1 +
      (get_stats (runOps initialState ops)).2.2.2.2 =
      (get_stats (runOps initialState ops)).1 := by
  have hinv := inv_runOps initialState ops inv_initialState
  have hlen : (runOps initialState ops).escrows.length ≤ ops.length := by
    have := length_runOps initialState ops
    simpa [initialState] using this
  have hsum := statsLoop_sum (runOps initialState ops).escrows 0 0 0 0
    (fun kv hkv => (hinv.2 kv hkv).1) (by omega)
  have hcnt : (runOps initialState ops).counter =
      (runOps initialState ops).escrows.length := by
    rw [hinv.1]
    exact Nat.mod_eq_of_lt (by omega)
  simp only [get_stats] at *
  omega

/-- Witness for C7 on the one-create run opsW. -/
theorem stats_conservation_witness :
    opsW.length < 2 ^ 32 ∧
    (get_stats (runOps initialState opsW)).2.1 +
      (get_stats (runOps initialState opsW)).2.2.1 +
      (get_stats (runOps initialState opsW)).2.2.2.1 +
      (get_stats (runOps initialState opsW)).2.2.2.2 =
      (get_stats (runOps initialState opsW)).1 :=
  ⟨by decide, stats_conservation opsW (by decide)⟩

/-- C10: the refund field of the TimeLocks struct passed to create_escrow
has no observable effect: two calls differing only in time_locks.refund
return identical results and identical stored state (only
time_locks.withdrawal is read, becoming the escrow's time_lock), so every
subsequent operation sequence behaves identically as well. -/
theorem timelocks_refund_unused (env : Env) (s : State) (maker : Address)
    (amount : Int) (asset : Address) (hash_lock : Bytes) (w r1 r2 : Nat)
    (ops : List Op) :
    create_escrow env s maker amount asset hash_lock (TimeLocks.mk w r1) =
      create_escrow env s maker amount asset hash_lock (TimeLocks.mk w r2) ∧
    runOps (commit s (create_escrow env s maker amount asset hash_lock
        (TimeLocks.mk w r1))) ops =
      runOps (commit s (create_escrow env s maker amount asset hash_lock
        (TimeLocks.mk w r2))) ops := by
  have h : create_escrow env s maker amount asset hash_lock (TimeLocks.mk w r1) =
      create_escrow env s maker amount asset hash_lock (TimeLocks.mk w r2) := rfl
  exact ⟨h, by rw [h]⟩

/-- C1: create_escrow is all-or-nothing at the host level — whenever the
body returns a typed error the committed storage equals the initial
storage, so a persisted counter increment without a stored record is never
observable; and on the EscrowExists path specifically, the body's working
storage at the early return really does hold the incremented counter with
no new record (it is exactly the rollback that discards it). -/
theorem create_escrow_atomic (env : Env) (s : State) (maker : Address)
    (amount : Int) (asset : Address) (hash_lock : Bytes) (time_locks : TimeLocks) :
    (∀ er sb, create_escrow env s maker amount asset hash_lock time_locks = .err er sb →
       commit s (create_escrow env s maker amount asset hash_lock time_locks) = s) ∧
    (∀ sb, create_escrow env s maker amount asset hash_lock time_locks =
        .err .EscrowExists sb →
       sb.counter = (s.counter + 1) % 2 ^ 64 ∧ sb.escrows = s.escrows) := by
  constructor
  · intro er sb h
    rw [h]
    rfl
  · intro sb h
    simp only [create_escrow] at h
    split at h
    · exact absurd h (by simp)
    · split at h
      · exact absurd h (by simp)
      · split at h
        · injection h with h1 h2
          rw [← h2]
          exact ⟨rfl, rfl⟩
        · exact absurd h (by simp)

/-- Witness for C1: with a constant digest host and a pre-seeded registry,
create_escrow hits EscrowExists and the committed storage is unchanged
even though the body's working storage carried the incremented counter. -/
theorem create_escrow_atomic_witness :
    commit stateW (create_escrow envW stateW 7 1 9 [] (TimeLocks.mk 10 20)) = stateW ∧
    (State.mk 1 stateW.escrows).counter = (stateW.counter + 1) % 2 ^ 64 ∧
    (State.mk 1 stateW.escrows).escrows = stateW.escrows :=
  ⟨(create_escrow_atomic envW stateW 7 1 9 [] (TimeLocks.mk 10 20)).1 .EscrowExists
      (State.mk 1 stateW.escrows) (by decide),
   (create_escrow_atomic envW stateW 7 1 9 [] (TimeLocks.mk 10 20)).2
      (State.mk 1 stateW.escrows) (by decide)⟩

/-- C5: terminality — on a record whose status is completed or refunded,
lock_escrow, complete_escrow and refund_escrow all return InvalidStatus
(given that the authorization checks that precede the status check pass),
and the committed storage, hence the record, is unchanged. -/
theorem terminal_states_frozen (env : Env) (s : State) (escrow_id : Bytes)
    (resolver : Address) (secret : Bytes) (e : Escrow)
    (hget : mapGet s.escrows escrow_id = some e)
    (hterm : e.status = 2 ∨ e.status = 3)
    (hr : env.auths resolver = true)
    (hm : env.auths e.maker = true) :
    lock_escrow env s escrow_id resolver = .err .InvalidStatus s ∧
    complete_escrow env s escrow_id secret resolver = .err .InvalidStatus s ∧
    refund_escrow env s escrow_id = .err .InvalidStatus s ∧
    stepOp s (.lock env escrow_id resolver) = s ∧
    stepOp s (.complete env escrow_id secret resolver) = s ∧
    stepOp s (.refund env escrow_id) = s := by
  have hs0 : e.status ≠ 0 := by omega
  have hs1 : e.status ≠ 1 := by omega
  have hl : lock_escrow env s escrow_id resolver = .err .InvalidStatus s := by
    simp [lock_escrow, hr, hget, hs0]
  have hcpl : complete_escrow env s escrow_id secret resolver =
      .err .InvalidStatus s := by
    simp [complete_escrow, hr, hget, hs1]
  have hrf : refund_escrow env s escrow_id = .err .InvalidStatus s := by
    simp [refund_escrow, hget, hm, hs0, hs1]
  refine ⟨hl, hcpl, hrf, ?_, ?_, ?_⟩
  · simp only [stepOp, hl, commit]
  · simp only [stepOp, hcpl, commit]
  · simp only [stepOp, hrf, commit]

/-- Witness for C5 on a concrete completed record with all authorizations
granted. -/
theorem terminal_states_frozen_witness :
    lock_escrow envW stateDone [5] 3 = .err .InvalidStatus stateDone ∧
    complete_escrow envW stateDone [5] [9] 3 = .err .InvalidStatus stateDone ∧
    refund_escrow envW stateDone [5] = .err .InvalidStatus stateDone ∧
    stepOp stateDone (.lock envW [5] 3) = stateDone ∧
    stepOp stateDone (.complete envW [5] [9] 3) = stateDone ∧
    stepOp stateDone (.refund envW [5]) = stateDone :=
  terminal_states_frozen envW stateDone [5] 3 [9] recDone (by decide)
    (Or.inl (by decide)) (by decide) (by decide)

/-- C4: the completion and refund windows are disjoint at every single
instant — completion requires timestamp ≤ time_lock while refund requires
timestamp > time_lock, so against one and the same ledger state and
timestamp, complete_escrow and refund_escrow can never both succeed on the
same record, including at the boundary timestamp = time_lock. -/
theorem complete_refund_disjoint (env : Env) (s : State) (escrow_id secret : Bytes)
    (resolver : Address) :
    succeedsRes (complete_escrow env s escrow_id secret resolver) = false ∨
    succeedsRes (refund_escrow env s escrow_id) = false := by
  cases hc : complete_escrow env s escrow_id secret resolver with
  | ok u s' =>
      right
      obtain ⟨ha, e, hget, hst, hhash, htime, hs'⟩ := complete_ok_elim env s escrow_id
        secret resolver u s' hc
      cases hm : env.auths e.maker
      · simp [refund_escrow, hget, hm, succeedsRes]
      · simp [refund_escrow, hget, hm, hst, htime, succeedsRes]
  | err er s' =>
      left
      rfl
  | trap s' =>
      left
      rfl

/-- C2: completion correctness — complete_escrow succeeds exactly when the
record exists with status locked, sha256 of the supplied secret equals the
stored hash_lock, and timestamp ≤ time_lock; otherwise it returns exactly
one of EscrowNotFound, InvalidStatus, InvalidSecret, TimelockExpired, with
the checks evaluated in the order status, secret, timelock (an expired
escrow with the correct secret fails TimelockExpired); and on success the
stored record has status completed and stores exactly the supplied secret
bytes.  A failed resolver authorization traps instead of returning a typed
error. -/
theorem complete_escrow_correct (env : Env) (s : State) (escrow_id secret : Bytes)
    (resolver : Address) :
    (match complete_escrow env s escrow_id secret resolver with
     | .ok _ s' =>
         env.auths resolver = true ∧
         ∃ e, mapGet s.escrows escrow_id = some e ∧ e.status = 1 ∧
           compute_hash_lock env secret = e.hash_lock ∧
           env.timestamp ≤ e.time_lock ∧
           mapGet s'.escrows escrow_id =
             some ({ e with status := 2, secret := some secret })
     | .err er _ =>
         env.auths resolver = true ∧
         ((er = .EscrowNotFound ∧ mapGet s.escrows escrow_id = none) ∨
          ∃ e, mapGet s.escrows escrow_id = some e ∧
            ((er = .InvalidStatus ∧ e.status ≠ 1) ∨
             (er = .InvalidSecret ∧ e.status = 1 ∧
               compute_hash_lock env secret ≠ e.hash_lock) ∨
             (er = .TimelockExpired ∧ e.status = 1 ∧
               compute_hash_lock env secret = e.hash_lock ∧
               env.timestamp > e.time_lock)))
     | .trap _ => env.auths resolver = false) ∧
    (succeedsRes (complete_escrow env s escrow_id secret resolver) = true ↔
      env.auths resolver = true ∧ ∃ e, mapGet s.escrows escrow_id = some e ∧
        e.status = 1 ∧ compute_hash_lock env secret = e.hash_lock ∧
        env.timestamp ≤ e.time_lock) := by
  cases ha : env.auths resolver with
  | false =>
      have hres : complete_escrow env s escrow_id secret resolver = .trap s := by
        simp [complete_escrow, ha]
      rw [hres]
      refine ⟨rfl, ?_, ?_⟩
      · intro h
        exact absurd h (by simp [succeedsRes])
      · rintro ⟨hauth, -⟩
        exact Bool.noConfusion hauth
  | true =>
      cases hg : mapGet s.escrows escrow_id with
      | none =>
          have hres : complete_escrow env s escrow_id secret resolver =
              .err .EscrowNotFound s := by
            simp [complete_escrow, ha, hg]
          rw [hres]
          refine ⟨⟨rfl, Or.inl ⟨rfl, rfl⟩⟩, ?_, ?_⟩
          · intro h
            exact absurd h (by simp [succeedsRes])
          · rintro ⟨-, e, hge, -⟩
            exact Option.noConfusion hge
      | some e =>
          by_cases hst : e.status = 1
          · by_cases hh : compute_hash_lock env secret = e.hash_lock
            · by_cases ht : env.timestamp ≤ e.time_lock
              · have hres : complete_escrow env s escrow_id secret resolver =
                    .ok () ({ s with escrows := mapSet s.escrows escrow_id ({ e with status := 2, secret := some secret }) }) := by
                  simp [complete_escrow, ha, hg, hst, hh, Nat.not_lt.mpr ht]
                rw [hres]
                refine ⟨⟨rfl, e, rfl, hst, hh, ht, ?_⟩, ?_, ?_⟩
                · show mapGet (mapSet s.escrows escrow_id _) escrow_id = _
                  rw [mapGet_mapSet, if_pos rfl]
                · intro _
                  exact ⟨rfl, e, rfl, hst, hh, ht⟩
                · intro _
                  rfl
              · have hres : complete_escrow env s escrow_id secret resolver =
                    .err .TimelockExpired s := by
                  simp [complete_escrow, ha, hg, hst, hh, Nat.not_le.mp ht]
                rw [hres]
                refine ⟨⟨rfl, Or.inr ⟨e, rfl, Or.inr (Or.inr ⟨rfl, hst, hh, Nat.not_le.mp ht⟩)⟩⟩, ?_, ?_⟩
                · intro h
                  exact absurd h (by simp [succeedsRes])
                · rintro ⟨-, e2, hge, -, -, ht2⟩
                  injection hge with hge
                  subst hge
                  exact absurd ht2 ht
            · have hres : complete_escrow env s escrow_id secret resolver =
                  .err .InvalidSecret s := by
                simp [complete_escrow, ha, hg, hst, hh]
              rw [hres]
              refine ⟨⟨rfl, Or.inr ⟨e, rfl, Or.inr (Or.inl ⟨rfl, hst, hh⟩)⟩⟩, ?_, ?_⟩
              · intro h
                exact absurd h (by simp [succeedsRes])
              · rintro ⟨-, e2, hge, -, hh2, -⟩
                injection hge with hge
                subst hge
                exact absurd hh2 hh
          · have hres : complete_escrow env s escrow_id secret resolver =
                .err .InvalidStatus s := by
              simp [complete_escrow, ha, hg, hst]
            rw [hres]
            refine ⟨⟨rfl, Or.inr ⟨e, rfl, Or.inl ⟨rfl, hst⟩⟩⟩, ?_, ?_⟩
            · intro h
              exact absurd h (by simp [succeedsRes])
            · rintro ⟨-, e2, hge, hst2, -⟩
              injection hge with hge
              subst hge
              exact absurd hst2 hst

/-- C3: refund correctness — refund_escrow succeeds exactly when the
record exists, authorization for the record's stored maker passes (the
identity is read from the record, no caller parameter), the status is
pending or locked, and timestamp > time_lock; on failure it returns
EscrowNotFound, InvalidStatus, or TimelockNotExpired respectively (a
failed maker authorization traps instead of returning a typed error); on
success the stored status becomes refunded. -/
theorem refund_escrow_correct (env : Env) (s : State) (escrow_id : Bytes) :
    (match refund_escrow env s escrow_id with
     | .ok _ s' =>
         ∃ e, mapGet s.escrows escrow_id = some e ∧ env.auths e.maker = true ∧
           (e.status = 0 ∨ e.status = 1) ∧ env.timestamp > e.time_lock ∧
           mapGet s'.escrows escrow_id = some ({ e with status := 3 })
     | .err er _ =>
         (er = .EscrowNotFound ∧ mapGet s.escrows escrow_id = none) ∨
         ∃ e, mapGet s.escrows escrow_id = some e ∧ env.auths e.maker = true ∧
           ((er = .InvalidStatus ∧ e.status ≠ 0 ∧ e.status ≠ 1) ∨
            (er = .TimelockNotExpired ∧ (e.status = 0 ∨ e.status = 1) ∧
              env.timestamp ≤ e.time_lock))
     | .trap _ =>
         ∃ e, mapGet s.escrows escrow_id = some e ∧ env.auths e.maker = false) ∧
    (succeedsRes (refund_escrow env s escrow_id) = true ↔
      ∃ e, mapGet s.escrows escrow_id = some e ∧ env.auths e.maker = true ∧
        (e.status = 0 ∨ e.status = 1) ∧ env.timestamp > e.time_lock) := by
  cases hg : mapGet s.escrows escrow_id with
  | none =>
      have hres : refund_escrow env s escrow_id = .err .EscrowNotFound s := by
        simp [refund_escrow, hg]
      rw [hres]
      refine ⟨Or.inl ⟨rfl, rfl⟩, ?_, ?_⟩
      · intro h
        exact absurd h (by simp [succeedsRes])
      · rintro ⟨e, hge, -⟩
        exact Option.noConfusion hge
  | some e =>
      cases hm : env.auths e.maker with
      | false =>
          have hres : refund_escrow env s escrow_id = .trap s := by
            simp [refund_escrow, hg, hm]
          rw [hres]
          refine ⟨⟨e, rfl, hm⟩, ?_, ?_⟩
          · intro h
            exact absurd h (by simp [succeedsRes])
          · rintro ⟨e2, hge, hm2, -⟩
            injection hge with hge
            subst hge
            rw [hm] at hm2
            exact Bool.noConfusion hm2
      | true =>
          by_cases hst01 : e.status = 0 ∨ e.status = 1
          · have hstF : ¬(e.status ≠ 0 ∧ e.status ≠ 1) := by
              rcases hst01 with h | h <;> simp [h]
            by_cases ht : env.timestamp ≤ e.time_lock
            · have hres : refund_escrow env s escrow_id =
                  .err .TimelockNotExpired s := by
                simp [refund_escrow, hg, hm, hstF, ht]
              rw [hres]
              refine ⟨Or.inr ⟨e, rfl, hm, Or.inr ⟨rfl, hst01, ht⟩⟩, ?_, ?_⟩
              · intro h
                exact absurd h (by simp [succeedsRes])
              · rintro ⟨e2, hge, -, -, ht2⟩
                injection hge with hge
                subst hge
                exact absurd ht (Nat.not_le.mpr ht2)
            · have hres : refund_escrow env s escrow_id =
                  .ok () ({ s with escrows := mapSet s.escrows escrow_id ({ e with status := 3 }) }) := by
                simp [refund_escrow, hg, hm, hstF, ht]
              rw [hres]
              refine ⟨⟨e, rfl, hm, hst01, Nat.not_le.mp ht, ?_⟩, ?_, ?_⟩
              · show mapGet (mapSet s.escrows escrow_id _) escrow_id = _
                rw [mapGet_mapSet, if_pos rfl]
              · intro _
                exact ⟨e, rfl, hm, hst01, Nat.not_le.mp ht⟩
              · intro _
                rfl
          · have hs0 : e.status ≠ 0 := fun h => hst01 (Or.inl h)
            have hs1 : e.status ≠ 1 := fun h => hst01 (Or.inr h)
            have hres : refund_escrow env s escrow_id = .err .InvalidStatus s := by
              simp [refund_escrow, hg, hm, hs0, hs1]
            rw [hres]
            refine ⟨Or.inr ⟨e, rfl, hm, Or.inl ⟨rfl, hs0, hs1⟩⟩, ?_, ?_⟩
            · intro h
              exact absurd h (by simp [succeedsRes])
            · rintro ⟨e2, hge, -, hst2, -⟩
              injection hge with hge
              subst hge
              exact absurd hst2 hst01

theorem frame_of_set (m : List (Bytes × Escrow)) (escrow_id k : Bytes)
    (e0 e1 e' : Escrow) (hget : mapGet m escrow_id = some e0) (hf : frameEq e0 e1)
    (h : mapGet (mapSet m escrow_id e1) k = some e') :
    ∃ e, mapGet m k = some e ∧ frameEq e e' := by
  rw [mapGet_mapSet] at h
  by_cases hk : escrow_id = k
  · rw [if_pos hk] at h
    injection h with h
    subst h
    exact ⟨e0, hk ▸ hget, hf⟩
  · rw [if_neg hk] at h
    exact ⟨e', h, frameEq_refl e'⟩

/-- C9: immutability frame — across any lock_escrow, complete_escrow or
refund_escrow invocation, successful or failed, every record observable in
the committed storage descends from a record of the prior storage whose
id, maker, amount, asset, hash_lock, time_lock and created_at fields are
identical: these operations can change only status and (for completion)
secret. -/
theorem mutation_frame (env : Env) (s : State) (escrow_id k : Bytes)
    (resolver : Address) (secret : Bytes) :
    (∀ e', mapGet (commit s (lock_escrow env s escrow_id resolver)).escrows k = some e' →
       ∃ e, mapGet s.escrows k = some e ∧ frameEq e e') ∧
    (∀ e', mapGet (commit s (complete_escrow env s escrow_id secret resolver)).escrows k = some e' →
       ∃ e, mapGet s.escrows k = some e ∧ frameEq e e') ∧
    (∀ e', mapGet (commit s (refund_escrow env s escrow_id)).escrows k = some e' →
       ∃ e, mapGet s.escrows k = some e ∧ frameEq e e') := by
  refine ⟨?_, ?_, ?_⟩
  · intro e' h
    cases hc : lock_escrow env s escrow_id resolver with
    | ok u s1 =>
        obtain ⟨-, e, he, -, hs1⟩ := lock_ok_elim env s escrow_id resolver u s1 hc
        rw [hc] at h
        simp only [commit] at h
        rw [hs1] at h
        exact frame_of_set s.escrows escrow_id k e ({ e with status := 1 }) e' he
          ⟨rfl, rfl, rfl, rfl, rfl, rfl, rfl⟩ h
    | err er s1 =>
        rw [hc] at h
        simp only [commit] at h
        exact ⟨e', h, frameEq_refl e'⟩
    | trap s1 =>
        rw [hc] at h
        simp only [commit] at h
        exact ⟨e', h, frameEq_refl e'⟩
  · intro e' h
    cases hc : complete_escrow env s escrow_id secret resolver with
    | ok u s1 =>
        obtain ⟨-, e, he, -, -, -, hs1⟩ := complete_ok_elim env s escrow_id secret
          resolver u s1 hc
        rw [hc] at h
        simp only [commit] at h
        rw [hs1] at h
        exact frame_of_set s.escrows escrow_id k e
          ({ e with status := 2, secret := some secret }) e' he
          ⟨rfl, rfl, rfl, rfl, rfl, rfl, rfl⟩ h
    | err er s1 =>
        rw [hc] at h
        simp only [commit] at h
        exact ⟨e', h, frameEq_refl e'⟩
    | trap s1 =>
        rw [hc] at h
        simp only [commit] at h
        exact ⟨e', h, frameEq_refl e'⟩
  · intro e' h
    cases hc : refund_escrow env s escrow_id with
    | ok u s1 =>
        obtain ⟨e, he, -, -, -, hs1⟩ := refund_ok_elim env s escrow_id u s1 hc
        rw [hc] at h
        simp only [commit] at h
        rw [hs1] at h
        exact frame_of_set s.escrows escrow_id k e ({ e with status := 3 }) e' he
          ⟨rfl, rfl, rfl, rfl, rfl, rfl, rfl⟩ h
    | err er s1 =>
        rw [hc] at h
        simp only [commit] at h
        exact ⟨e', h, frameEq_refl e'⟩
    | trap s1 =>
        rw [hc] at h
        simp only [commit] at h
        exact ⟨e', h, frameEq_refl e'⟩

/-- Witness for C9 on a concrete storage whose record survives all three
operations untouched because the authorization oracle denies every
identity. -/
theorem mutation_frame_witness :
    (∃ e, mapGet stateW.escrows [0] = some e ∧ frameEq e recW) ∧
    (∃ e, mapGet stateW.escrows [0] = some e ∧ frameEq e recW) ∧
    (∃ e, mapGet stateW.escrows [0] = some e ∧ frameEq e recW) :=
  ⟨(mutation_frame envNoAuth stateW [0] [0] 3 [9]).1 recW (by decide),
   (mutation_frame envNoAuth stateW [0] [0] 3 [9]).2.1 recW (by decide),
   (mutation_frame envNoAuth stateW [0] [0] 3 [9]).2.2 recW (by decide)⟩

end StellHydra
